import Mathlib

/-!
Shallow embedding of the bounded-concurrency batch-embedding client of
`automatic_embedding_tei_inference_endpoints.ipynb`, the `request` / `main`
cell:

  async def request(document, semaphore):
      async with semaphore:
          result = await endpoint.async_client.post(
              json={"inputs": document['content'], 'truncate': True},
              task="feature-extraction")
          result = np.array(json.loads(result.decode()))
          document['embedding'] = result[0]
          return document

  async def main(documents):
      semaphore = asyncio.BoundedSemaphore(MAX_WORKERS)
      tasks = [request(document, semaphore) for document in documents]
      for f in tqdm(asyncio.as_completed(tasks), total=len(documents)):
          await f

The embedding models one asyncio task per document and an explicit counting
semaphore.  Between two awaits, asyncio code runs atomically, so the model has
exactly two kinds of atomic transitions per task:

* `acquire`: the task passes `async with semaphore` (only possible while a
  slot is free) and its request becomes outstanding (in flight);
* `complete`: the outstanding post finishes; the response is decoded and
  either `document['embedding'] = result[0]` succeeds, or the step raises
  (failed post / `result[0]` on an empty array); either way the
  `async with` block exits and releases the slot.

The remote endpoint is a function from the posted JSON payload to a decoded
response, which is exactly the determinism hypothesis of the spec's fake
endpoints; network nondeterminism is in the interleaving of the transitions.
-/

namespace EmbedClient

/-- Configuration constant of the notebook: `MAX_WORKERS = 5`. -/
def MAX_WORKERS : Nat := 5

/-- Configuration constant of the notebook: `ROW_COUNT = 100`. -/
def ROW_COUNT : Nat := 100

/-- One document of the job set: the required `content` text field, the other
fields of the dict (opaque to the client, kept as name/value pairs), and the
`embedding` field, absent (`none`) until `request` assigns it. -/
structure Record where
  content : String
  otherFields : List (String × String)
  embedding : Option (List Int) := none
deriving DecidableEq, Repr, Inhabited

/-- The JSON body posted by `request`:
`json={"inputs": document['content'], 'truncate': True}`. -/
structure Payload where
  inputs : String
  truncate : Bool
deriving DecidableEq, Repr

/-- The payload `request` builds for a document: the document's full
`content` string and the hard-coded `truncate: True` flag. -/
def mkPayload (document : Record) : Payload :=
  { inputs := document.content, truncate := true }

/-- Decoded outcome of one post to the endpoint: either the request fails
(network error, non-2xx status, or a body that does not decode), or it
yields the vector-of-vectors the service returns. -/
inductive EndpointResult where
  | failure : EndpointResult
  | success : List (List Int) → EndpointResult
deriving DecidableEq, Repr

/-- The exceptions a `request` body can raise: a failed/undecodable post, or
the `IndexError` from `result[0]` on an empty response array. -/
inductive ReqError where
  | network : ReqError
  | indexError : ReqError
deriving DecidableEq, Repr

/-- Does the endpoint response carry at least one vector? -/
def hasVector : EndpointResult → Bool
  | .success (_ :: _) => true
  | _ => false

/-- The first vector of a response, the `result[0]` that `request` keeps. -/
def firstVector? : EndpointResult → Option (List Int)
  | .success (v :: _) => some v
  | _ => none

/-- The effect of the `request` body once the post's outcome is known:
on failure the exception propagates and the document is untouched; on a
successful but empty response `result[0]` raises `IndexError` and the
document is untouched; otherwise `document['embedding'] = result[0]`. -/
def applyResponse (document : Record) (r : EndpointResult) : Except ReqError Record :=
  match r with
  | .failure => .error .network
  | .success [] => .error .indexError
  | .success (v :: _) => .ok { document with embedding := some v }

/-- The outcome of the single request `request` issues for a document:
post `mkPayload document` to the endpoint and run the rest of the body. -/
def taskOutcome (ep : Payload → EndpointResult) (document : Record) :
    Except ReqError Record :=
  applyResponse document (ep (mkPayload document))

/-- The document as it stands after its task has finished, successfully or
not: on success the updated document, on an exception the original one. -/
def finalDoc (ep : Payload → EndpointResult) (document : Record) : Record :=
  match taskOutcome ep document with
  | .ok d => d
  | .error _ => document

/-- The error of a task's outcome, `none` on success. -/
def outcomeErr? (ep : Payload → EndpointResult) (document : Record) : Option ReqError :=
  match taskOutcome ep document with
  | .ok _ => none
  | .error e => some e

/-- Scheduling phase of one task: not yet past the semaphore, request
outstanding, or finished (`done none` returned, `done (some e)` raised). -/
inductive TaskPhase where
  | waiting : TaskPhase
  | inFlight : TaskPhase
  | done : Option ReqError → TaskPhase
deriving DecidableEq, Repr

/-- Is this task finished (its future resolved, normally or exceptionally)? -/
def TaskPhase.isDone : TaskPhase → Bool
  | .done _ => true
  | _ => false

/-- Did this task finish by raising? -/
def TaskPhase.isFailed : TaskPhase → Bool
  | .done (some _) => true
  | _ => false

/-- Global state of one run of `main`: the documents (mutated in place by the
tasks), one phase and one admission counter per task (position `i` serves
`documents[i]`, since `main` builds `tasks` by one comprehension over
`documents`), and the number of free semaphore slots. -/
structure ClientState where
  docs : List Record
  phases : List TaskPhase
  attempts : List Nat
  avail : Nat
deriving DecidableEq, Repr

/-- State at the top of `main`, after `tasks` is built and before any task
runs: every task waits, no document touched, all `K` slots free. -/
def initState (docs0 : List Record) (K : Nat) : ClientState :=
  { docs := docs0
    phases := List.replicate docs0.length .waiting
    attempts := List.replicate docs0.length 0
    avail := K }

/-- Atomic transition: task `i` passes `async with semaphore`, consuming a
free slot, and its post becomes outstanding. -/
def acquireStep (s : ClientState) (i : Nat) : ClientState :=
  { s with
    phases := s.phases.set i .inFlight
    attempts := s.attempts.set i (s.attempts.getD i 0 + 1)
    avail := s.avail - 1 }

/-- Atomic transition: the outstanding post of task `i` resolves; the body
after the `await` runs to the end of the `async with` block without yielding,
so assigning the embedding (or raising) and releasing the slot is one step. -/
def completeStep (ep : Payload → EndpointResult) (s : ClientState) (i : Nat) :
    ClientState :=
  match taskOutcome ep (s.docs.getD i default) with
  | .ok d =>
      { s with
        docs := s.docs.set i d
        phases := s.phases.set i (.done none)
        avail := s.avail + 1 }
  | .error e =>
      { s with
        phases := s.phases.set i (.done (some e))
        avail := s.avail + 1 }

/-- Interleaving semantics of the task set: any waiting task may acquire
while a slot is free; any in-flight task may complete.  The scheduler and the
network choose the order, so runs of `main` are exactly the paths of this
relation. -/
inductive Step (ep : Payload → EndpointResult) : ClientState → ClientState → Prop where
  | acquire (s : ClientState) (i : Nat) (hi : i < s.phases.length)
      (hw : s.phases.getD i .waiting = .waiting) (ha : 0 < s.avail) :
      Step ep s (acquireStep s i)
  | complete (s : ClientState) (i : Nat) (hi : i < s.phases.length)
      (hf : s.phases.getD i .waiting = .inFlight) :
      Step ep s (completeStep ep s i)

/-- States an execution of `main documents` with semaphore bound `K` can be
in at some instant. -/
def Reachable (ep : Payload → EndpointResult) (docs0 : List Record) (K : Nat)
    (s : ClientState) : Prop :=
  Relation.ReflTransGen (Step ep) (initState docs0 K) s

/-- Every task's future has resolved: the run of the task set is over. -/
def Terminal (s : ClientState) : Prop :=
  s.phases.all TaskPhase.isDone = true

instance (s : ClientState) : Decidable (Terminal s) :=
  inferInstanceAs (Decidable (s.phases.all TaskPhase.isDone = true))

/-- Number of requests outstanding against the endpoint at this instant. -/
def countInFlight (s : ClientState) : Nat :=
  s.phases.count .inFlight

/-- Whether the `for f in ...: await f` loop of `main` re-raises: `main`
awaits every completed future, so it terminates exceptionally exactly when
some task finished with an exception. -/
def mainAborted (s : ClientState) : Bool :=
  s.phases.any TaskPhase.isFailed

/-- Reading an updated position of a list. -/
theorem getD_set_self {α : Type} (l : List α) (i : Nat) (v d : α) (h : i < l.length) :
    (l.set i v).getD i d = v := by
  rw [List.getD_eq_getElem _ _ (by simpa using h)]
  exact List.getElem_set_self _

/-- Reading an untouched position of a list. -/
theorem getD_set_ne {α : Type} (l : List α) (i j : Nat) (v d : α) (hne : i ≠ j) :
    (l.set i v).getD j d = l.getD j d := by
  simp [List.getD, List.getElem?_set_ne hne]

/-- Reading a constant list, with the constant as fallback. -/
theorem getD_replicate {α : Type} (c : α) (n i : Nat) :
    (List.replicate n c).getD i c = c := by
  rcases Nat.lt_or_ge i n with h | h
  · rw [List.getD_eq_getElem _ _ (by simpa using h), List.getElem_replicate]
  · exact List.getD_eq_default _ _ (by simpa using h)

/-- Inductive invariant of a run: list shapes are fixed, the semaphore
accounts exactly for the in-flight tasks, and each document's state is
determined by the phase of its task. -/
structure Inv (ep : Payload → EndpointResult) (docs0 : List Record) (K : Nat)
    (s : ClientState) : Prop where
  lenPhases : s.phases.length = docs0.length
  lenDocs : s.docs.length = docs0.length
  lenAttempts : s.attempts.length = docs0.length
  sem : s.avail + countInFlight s = K
  wait_inv : ∀ i, i < docs0.length → s.phases.getD i .waiting = .waiting →
    s.docs.getD i default = docs0.getD i default ∧ s.attempts.getD i 0 = 0
  flight_inv : ∀ i, i < docs0.length → s.phases.getD i .waiting = .inFlight →
    s.docs.getD i default = docs0.getD i default ∧ s.attempts.getD i 0 = 1
  ok_inv : ∀ i, i < docs0.length → s.phases.getD i .waiting = .done none →
    taskOutcome ep (docs0.getD i default) = .ok (s.docs.getD i default) ∧
      s.attempts.getD i 0 = 1
  err_inv : ∀ i, i < docs0.length → ∀ e, s.phases.getD i .waiting = .done (some e) →
    taskOutcome ep (docs0.getD i default) = .error e ∧
      s.docs.getD i default = docs0.getD i default ∧ s.attempts.getD i 0 = 1

/-- The invariant holds at the start of a run. -/
theorem inv_init (ep : Payload → EndpointResult) (docs0 : List Record) (K : Nat) :
    Inv ep docs0 K (initState docs0 K) := by
  refine ⟨by simp [initState], rfl, by simp [initState], ?_, ?_, ?_, ?_, ?_⟩
  · have h0 : (List.replicate docs0.length TaskPhase.waiting).count .inFlight = 0 := by
      simp [List.count_eq_zero, List.mem_replicate]
    simp [initState, countInFlight, h0]
  · intro i hi _
    exact ⟨rfl, getD_replicate 0 docs0.length i⟩
  · intro i hi h
    simp only [initState] at h
    rw [getD_replicate] at h
    simp at h
  · intro i hi h
    simp only [initState] at h
    rw [getD_replicate] at h
    simp at h
  · intro i hi e h
    simp only [initState] at h
    rw [getD_replicate] at h
    simp at h

/-- The documents are untouched by an acquire. -/
theorem acquireStep_docs (s : ClientState) (i : Nat) :
    (acquireStep s i).docs = s.docs := rfl

/-- Phases after an acquire. -/
theorem acquireStep_phases (s : ClientState) (i : Nat) :
    (acquireStep s i).phases = s.phases.set i .inFlight := rfl

/-- Admission counters after an acquire. -/
theorem acquireStep_attempts (s : ClientState) (i : Nat) :
    (acquireStep s i).attempts = s.attempts.set i (s.attempts.getD i 0 + 1) := rfl

/-- Free slots after an acquire. -/
theorem acquireStep_avail (s : ClientState) (i : Nat) :
    (acquireStep s i).avail = s.avail - 1 := rfl

/-- Completion never touches the admission counters. -/
theorem completeStep_attempts (ep : Payload → EndpointResult) (s : ClientState) (i : Nat) :
    (completeStep ep s i).attempts = s.attempts := by
  unfold completeStep
  cases taskOutcome ep (s.docs.getD i default) <;> rfl

/-- Completion always gives the slot back, also on an exception, because
`async with` releases on unwind. -/
theorem completeStep_avail (ep : Payload → EndpointResult) (s : ClientState) (i : Nat) :
    (completeStep ep s i).avail = s.avail + 1 := by
  unfold completeStep
  cases taskOutcome ep (s.docs.getD i default) <;> rfl

/-- Phases after a completion, success or failure: the task is done and
carries its outcome's error, if any. -/
theorem completeStep_phases (ep : Payload → EndpointResult) (s : ClientState) (i : Nat) :
    (completeStep ep s i).phases
      = s.phases.set i (.done (outcomeErr? ep (s.docs.getD i default))) := by
  unfold completeStep outcomeErr?
  cases taskOutcome ep (s.docs.getD i default) <;> rfl

/-- Documents after a successful completion. -/
theorem completeStep_docs_ok {ep : Payload → EndpointResult} {s : ClientState} {i : Nat}
    {d : Record} (h : taskOutcome ep (s.docs.getD i default) = .ok d) :
    (completeStep ep s i).docs = s.docs.set i d := by
  unfold completeStep
  rw [h]

/-- Documents after an exceptional completion: untouched. -/
theorem completeStep_docs_err {ep : Payload → EndpointResult} {s : ClientState} {i : Nat}
    {e : ReqError} (h : taskOutcome ep (s.docs.getD i default) = .error e) :
    (completeStep ep s i).docs = s.docs := by
  unfold completeStep
  rw [h]

/-- Phases after a successful completion. -/
theorem completeStep_phases_ok {ep : Payload → EndpointResult} {s : ClientState} {i : Nat}
    {d : Record} (h : taskOutcome ep (s.docs.getD i default) = .ok d) :
    (completeStep ep s i).phases = s.phases.set i (.done none) := by
  unfold completeStep
  rw [h]

/-- Phases after an exceptional completion. -/
theorem completeStep_phases_err {ep : Payload → EndpointResult} {s : ClientState} {i : Nat}
    {e : ReqError} (h : taskOutcome ep (s.docs.getD i default) = .error e) :
    (completeStep ep s i).phases = s.phases.set i (.done (some e)) := by
  unfold completeStep
  rw [h]

/-- Every transition preserves the invariant. -/
theorem inv_step {ep : Payload → EndpointResult} {docs0 : List Record} {K : Nat}
    {s s' : ClientState} (hs : Inv ep docs0 K s) (hstep : Step ep s s') :
    Inv ep docs0 K s' := by
  cases hstep with
  | acquire i hi hw ha =>
      have hiD : i < docs0.length := hs.lenPhases ▸ hi
      have hiA : i < s.attempts.length := by rw [hs.lenAttempts]; exact hiD
      obtain ⟨hdoc, hatt⟩ := hs.wait_inv i hiD hw
      have hgl : s.phases[i] = TaskPhase.waiting := by
        rw [← List.getD_eq_getElem s.phases .waiting hi]; exact hw
      refine ⟨?_, ?_, ?_, ?_, ?_, ?_, ?_, ?_⟩
      · rw [acquireStep_phases, List.length_set]
        exact hs.lenPhases
      · rw [acquireStep_docs]
        exact hs.lenDocs
      · rw [acquireStep_attempts, List.length_set]
        exact hs.lenAttempts
      · have hsem := hs.sem
        simp only [countInFlight] at hsem ⊢
        rw [acquireStep_phases, acquireStep_avail, List.count_set _ _ _ _ hi, hgl]
        simp
        omega
      · intro j hj h
        rw [acquireStep_phases] at h
        rw [acquireStep_docs, acquireStep_attempts]
        by_cases hij : i = j
        · subst hij
          rw [getD_set_self _ _ _ _ hi] at h
          simp at h
        · rw [getD_set_ne _ _ _ _ _ hij] at h
          obtain ⟨h1, h2⟩ := hs.wait_inv j hj h
          rw [getD_set_ne _ _ _ _ _ hij]
          exact ⟨h1, h2⟩
      · intro j hj h
        rw [acquireStep_phases] at h
        rw [acquireStep_docs, acquireStep_attempts]
        by_cases hij : i = j
        · subst hij
          rw [getD_set_self _ _ _ _ hiA, hatt]
          exact ⟨hdoc, rfl⟩
        · rw [getD_set_ne _ _ _ _ _ hij] at h
          rw [getD_set_ne _ _ _ _ _ hij]
          exact hs.flight_inv j hj h
      · intro j hj h
        rw [acquireStep_phases] at h
        rw [acquireStep_docs, acquireStep_attempts]
        by_cases hij : i = j
        · subst hij
          rw [getD_set_self _ _ _ _ hi] at h
          simp at h
        · rw [getD_set_ne _ _ _ _ _ hij] at h
          rw [getD_set_ne _ _ _ _ _ hij]
          exact hs.ok_inv j hj h
      · intro j hj e h
        rw [acquireStep_phases] at h
        rw [acquireStep_docs, acquireStep_attempts]
        by_cases hij : i = j
        · subst hij
          rw [getD_set_self _ _ _ _ hi] at h
          simp at h
        · rw [getD_set_ne _ _ _ _ _ hij] at h
          rw [getD_set_ne _ _ _ _ _ hij]
          exact hs.err_inv j hj e h
  | complete i hi hf =>
      have hiD : i < docs0.length := hs.lenPhases ▸ hi
      have hiDoc : i < s.docs.length := by rw [hs.lenDocs]; exact hiD
      obtain ⟨hdoc, hatt⟩ := hs.flight_inv i hiD hf
      have hgl : s.phases[i] = TaskPhase.inFlight := by
        rw [← List.getD_eq_getElem s.phases .waiting hi]; exact hf
      have hpos : 0 < s.phases.count .inFlight := by
        rw [List.count_pos_iff]
        exact hgl ▸ List.getElem_mem hi
      cases hres : taskOutcome ep (s.docs.getD i default) with
      | ok d =>
          have hout : taskOutcome ep (docs0.getD i default) = .ok d := by
            rw [← hdoc]; exact hres
          refine ⟨?_, ?_, ?_, ?_, ?_, ?_, ?_, ?_⟩
          · rw [completeStep_phases_ok hres, List.length_set]
            exact hs.lenPhases
          · rw [completeStep_docs_ok hres, List.length_set]
            exact hs.lenDocs
          · rw [completeStep_attempts]
            exact hs.lenAttempts
          · have hsem := hs.sem
            simp only [countInFlight] at hsem ⊢
            rw [completeStep_phases_ok hres, completeStep_avail,
              List.count_set _ _ _ _ hi, hgl]
            simp
            omega
          · intro j hj h
            rw [completeStep_phases_ok hres] at h
            rw [completeStep_docs_ok hres, completeStep_attempts]
            by_cases hij : i = j
            · subst hij
              rw [getD_set_self _ _ _ _ hi] at h
              simp at h
            · rw [getD_set_ne _ _ _ _ _ hij] at h
              obtain ⟨h1, h2⟩ := hs.wait_inv j hj h
              rw [getD_set_ne _ _ _ _ _ hij]
              exact ⟨h1, h2⟩
          · intro j hj h
            rw [completeStep_phases_ok hres] at h
            rw [completeStep_docs_ok hres, completeStep_attempts]
            by_cases hij : i = j
            · subst hij
              rw [getD_set_self _ _ _ _ hi] at h
              simp at h
            · rw [getD_set_ne _ _ _ _ _ hij] at h
              rw [getD_set_ne _ _ _ _ _ hij]
              exact hs.flight_inv j hj h
          · intro j hj h
            rw [completeStep_phases_ok hres] at h
            rw [completeStep_docs_ok hres, completeStep_attempts]
            by_cases hij : i = j
            · subst hij
              rw [getD_set_self _ _ _ _ hiDoc]
              exact ⟨hout, hatt⟩
            · rw [getD_set_ne _ _ _ _ _ hij] at h
              obtain ⟨h1, h2⟩ := hs.ok_inv j hj h
              rw [getD_set_ne _ _ _ _ _ hij]
              exact ⟨h1, h2⟩
          · intro j hj e h
            rw [completeStep_phases_ok hres] at h
            rw [completeStep_docs_ok hres, completeStep_attempts]
            by_cases hij : i = j
            · subst hij
              rw [getD_set_self _ _ _ _ hi] at h
              simp at h
            · rw [getD_set_ne _ _ _ _ _ hij] at h
              obtain ⟨h1, h2, h3⟩ := hs.err_inv j hj e h
              rw [getD_set_ne _ _ _ _ _ hij]
              exact ⟨h1, h2, h3⟩
      | error e =>
          have hout : taskOutcome ep (docs0.getD i default) = .error e := by
            rw [← hdoc]; exact hres
          refine ⟨?_, ?_, ?_, ?_, ?_, ?_, ?_, ?_⟩
          · rw [completeStep_phases_err hres, List.length_set]
            exact hs.lenPhases
          · rw [completeStep_docs_err hres]
            exact hs.lenDocs
          · rw [completeStep_attempts]
            exact hs.lenAttempts
          · have hsem := hs.sem
            simp only [countInFlight] at hsem ⊢
            rw [completeStep_phases_err hres, completeStep_avail,
              List.count_set _ _ _ _ hi, hgl]
            simp
            omega
          · intro j hj h
            rw [completeStep_phases_err hres] at h
            rw [completeStep_docs_err hres, completeStep_attempts]
            by_cases hij : i = j
            · subst hij
              rw [getD_set_self _ _ _ _ hi] at h
              simp at h
            · rw [getD_set_ne _ _ _ _ _ hij] at h
              exact hs.wait_inv j hj h
          · intro j hj h
            rw [completeStep_phases_err hres] at h
            rw [completeStep_docs_err hres, completeStep_attempts]
            by_cases hij : i = j
            · subst hij
              rw [getD_set_self _ _ _ _ hi] at h
              simp at h
            · rw [getD_set_ne _ _ _ _ _ hij] at h
              exact hs.flight_inv j hj h
          · intro j hj h
            rw [completeStep_phases_err hres] at h
            rw [completeStep_docs_err hres, completeStep_attempts]
            by_cases hij : i = j
            · subst hij
              rw [getD_set_self _ _ _ _ hi] at h
              simp at h
            · rw [getD_set_ne _ _ _ _ _ hij] at h
              exact hs.ok_inv j hj h
          · intro j hj e' h
            rw [completeStep_phases_err hres] at h
            rw [completeStep_docs_err hres, completeStep_attempts]
            by_cases hij : i = j
            · subst hij
              rw [getD_set_self _ _ _ _ hi] at h
              have he : e' = e := by
                cases h
                rfl
              subst he
              exact ⟨hout, hdoc, hatt⟩
            · rw [getD_set_ne _ _ _ _ _ hij] at h
              exact hs.err_inv j hj e' h

/-- The invariant holds in every reachable state of a run. -/
theorem inv_reachable {ep : Payload → EndpointResult} {docs0 : List Record} {K : Nat}
    {s : ClientState} (h : Reachable ep docs0 K s) : Inv ep docs0 K s := by
  have h' : Relation.ReflTransGen (Step ep) (initState docs0 K) s := h
  clear h
  induction h' with
  | refl => exact inv_init ep docs0 K
  | tail _ hstep ih => exact inv_step ih hstep

/-- One task driven start to finish: acquire, then complete. -/
def runOne (ep : Payload → EndpointResult) (s : ClientState) (i : Nat) : ClientState :=
  completeStep ep (acquireStep s i) i

/-- The serial schedule: tasks `0 .. n-1` run one after the other.  This is
one of the schedules the interleaving semantics admits; being executable, it
yields concrete complete runs. -/
def runUpTo (ep : Payload → EndpointResult) (docs0 : List Record) (K n : Nat) :
    ClientState :=
  (List.range n).foldl (runOne ep) (initState docs0 K)

/-- A complete run of the whole job set under the serial schedule. -/
def runAll (ep : Payload → EndpointResult) (docs0 : List Record) (K : Nat) : ClientState :=
  runUpTo ep docs0 K docs0.length

/-- The serial schedule starts at the initial state. -/
theorem runUpTo_zero (ep : Payload → EndpointResult) (docs0 : List Record) (K : Nat) :
    runUpTo ep docs0 K 0 = initState docs0 K := rfl

/-- Unfolding one task of the serial schedule. -/
theorem runUpTo_succ (ep : Payload → EndpointResult) (docs0 : List Record) (K n : Nat) :
    runUpTo ep docs0 K (n + 1) = runOne ep (runUpTo ep docs0 K n) n := by
  unfold runUpTo
  rw [List.range_succ, List.foldl_append]
  rfl

/-- State of the serial schedule after `n` tasks: reachable, all slots free,
tasks below `n` finished, tasks from `n` on still waiting. -/
structure SerialInv (ep : Payload → EndpointResult) (docs0 : List Record) (K n : Nat)
    (s : ClientState) : Prop where
  reach : Reachable ep docs0 K s
  avail_eq : s.avail = K
  lenP : s.phases.length = docs0.length
  done_before : ∀ j, j < n → (s.phases.getD j .waiting).isDone = true
  wait_after : ∀ j, n ≤ j → j < docs0.length → s.phases.getD j .waiting = .waiting

/-- The serial schedule is a legal execution, one finished task at a time. -/
theorem runUpTo_inv (ep : Payload → EndpointResult) (docs0 : List Record) (K : Nat)
    (hK : 0 < K) (n : Nat) (hn : n ≤ docs0.length) :
    SerialInv ep docs0 K n (runUpTo ep docs0 K n) := by
  revert hn
  induction n with
  | zero =>
      intro _
      rw [runUpTo_zero]
      refine ⟨Relation.ReflTransGen.refl, rfl, by simp [initState], ?_, ?_⟩
      · intro j hj
        exact absurd hj (Nat.not_lt_zero j)
      · intro j _ _
        exact getD_replicate TaskPhase.waiting docs0.length j
  | succ n ih =>
      intro hn
      obtain ⟨reach, havail, hlenP, hdone, hwait⟩ := ih (Nat.le_of_succ_le hn)
      have hnD : n < docs0.length := hn
      have hi : n < (runUpTo ep docs0 K n).phases.length := by
        rw [hlenP]; exact hnD
      have hw : (runUpTo ep docs0 K n).phases.getD n .waiting = .waiting :=
        hwait n (Nat.le_refl n) hnD
      have ha : 0 < (runUpTo ep docs0 K n).avail := by rw [havail]; exact hK
      have hstep1 : Step ep (runUpTo ep docs0 K n)
          (acquireStep (runUpTo ep docs0 K n) n) :=
        Step.acquire _ n hi hw ha
      have hi1 : n < (acquireStep (runUpTo ep docs0 K n) n).phases.length := by
        rw [acquireStep_phases, List.length_set]; exact hi
      have hf1 : (acquireStep (runUpTo ep docs0 K n) n).phases.getD n .waiting
          = .inFlight := by
        rw [acquireStep_phases]
        exact getD_set_self _ _ _ _ hi
      have hstep2 : Step ep (acquireStep (runUpTo ep docs0 K n) n)
          (completeStep ep (acquireStep (runUpTo ep docs0 K n) n) n) :=
        Step.complete _ n hi1 hf1
      have hphase2 : (runUpTo ep docs0 K (n + 1)).phases
          = (runUpTo ep docs0 K n).phases.set n
              (TaskPhase.done (outcomeErr? ep
                ((acquireStep (runUpTo ep docs0 K n) n).docs.getD n default))) := by
        rw [runUpTo_succ]
        unfold runOne
        rw [completeStep_phases, acquireStep_phases, List.set_set]
      refine ⟨?_, ?_, ?_, ?_, ?_⟩
      · rw [runUpTo_succ]
        exact (reach.tail hstep1).tail hstep2
      · rw [runUpTo_succ]
        unfold runOne
        rw [completeStep_avail, acquireStep_avail, havail]
        omega
      · rw [hphase2, List.length_set]
        exact hlenP
      · intro j hj
        rw [hphase2]
        by_cases hnj : n = j
        · subst hnj
          rw [getD_set_self _ _ _ _ hi]
          rfl
        · rw [getD_set_ne _ _ _ _ _ hnj]
          exact hdone j (by omega)
      · intro j hj hjD
        rw [hphase2]
        have hnj : n ≠ j := by omega
        rw [getD_set_ne _ _ _ _ _ hnj]
        exact hwait j (by omega) hjD

/-- The serial complete run is a reachable state of `main`. -/
theorem runAll_reachable (ep : Payload → EndpointResult) (docs0 : List Record) (K : Nat)
    (hK : 0 < K) : Reachable ep docs0 K (runAll ep docs0 K) :=
  (runUpTo_inv ep docs0 K hK docs0.length (Nat.le_refl _)).reach

/-- The serial complete run finishes every task. -/
theorem runAll_terminal (ep : Payload → EndpointResult) (docs0 : List Record) (K : Nat)
    (hK : 0 < K) : Terminal (runAll ep docs0 K) := by
  have hinv := runUpTo_inv ep docs0 K hK docs0.length (Nat.le_refl _)
  rw [Terminal, List.all_eq_true]
  intro x hx
  obtain ⟨i, h, rfl⟩ := List.mem_iff_getElem.mp hx
  rw [← List.getD_eq_getElem _ .waiting h]
  exact hinv.done_before i (by rw [← hinv.lenP]; exact h)

/-- In a terminal state every task's phase is a `done`. -/
theorem terminal_phase {s : ClientState} (ht : Terminal s) (i : Nat)
    (hi : i < s.phases.length) : ∃ o, s.phases.getD i .waiting = .done o := by
  rw [Terminal, List.all_eq_true] at ht
  have hmem : s.phases.getD i .waiting ∈ s.phases := by
    rw [List.getD_eq_getElem _ _ hi]
    exact List.getElem_mem hi
  have hd := ht _ hmem
  cases hph : s.phases.getD i .waiting with
  | waiting => rw [hph] at hd; simp [TaskPhase.isDone] at hd
  | inFlight => rw [hph] at hd; simp [TaskPhase.isDone] at hd
  | done o => exact ⟨o, rfl⟩

/-- After a complete run, document `i` holds exactly what its own task's
outcome dictates. -/
theorem final_doc_getD {ep : Payload → EndpointResult} {docs0 : List Record} {K : Nat}
    {s : ClientState} (hr : Reachable ep docs0 K s) (ht : Terminal s)
    (i : Nat) (hi : i < docs0.length) :
    s.docs.getD i default = finalDoc ep (docs0.getD i default) := by
  have inv := inv_reachable hr
  obtain ⟨o, hph⟩ := terminal_phase ht i (by rw [inv.lenPhases]; exact hi)
  cases o with
  | none =>
      obtain ⟨hout, _⟩ := inv.ok_inv i hi hph
      unfold finalDoc
      rw [hout]
  | some e =>
      obtain ⟨hout, hd, _⟩ := inv.err_inv i hi e hph
      unfold finalDoc
      rw [hout]
      exact hd

/-- After a complete run, the document list is the input list transformed
pointwise by each document's own outcome. -/
theorem final_docs {ep : Payload → EndpointResult} {docs0 : List Record} {K : Nat}
    {s : ClientState} (hr : Reachable ep docs0 K s) (ht : Terminal s) :
    s.docs = docs0.map (finalDoc ep) := by
  have inv := inv_reachable hr
  apply List.ext_getElem
  · rw [inv.lenDocs, List.length_map]
  · intro n h1 h2
    have hn : n < docs0.length := by rw [← inv.lenDocs]; exact h1
    rw [List.getElem_map, ← List.getD_eq_getElem s.docs default h1,
      ← List.getD_eq_getElem docs0 default hn]
    exact final_doc_getD hr ht n hn

/-- A job-set document with `i` characters of content and no embedding yet;
`i` distinct contents make the endpoints deterministic functions of the
document. -/
def mkDoc (i : Nat) : Record :=
  { content := String.mk (List.replicate i 'a')
    otherFields := [("title", String.mk (List.replicate i 'x'))]
    embedding := none }

/-- A two-document job set. -/
def docs2 : List Record := [mkDoc 0, mkDoc 1]

/-- A three-document job set. -/
def docs3 : List Record := [mkDoc 0, mkDoc 1, mkDoc 2]

/-- A hundred-document job set, the notebook's `ROW_COUNT`. -/
def docs100 : List Record := (List.range ROW_COUNT).map mkDoc

/-- Deterministic fake endpoint keyed by the posted text: always succeeds and
returns two vectors, so that keeping only `result[0]` is observable. -/
def epOK : Payload → EndpointResult :=
  fun p => .success [[(p.inputs.length : Int)], [7]]

/-- Deterministic fake endpoint that fails every 5th request: the documents
of `docs100` whose content length is `4 mod 5`. -/
def failEvery5 : Payload → EndpointResult :=
  fun p =>
    if p.inputs.length % 5 == 4 then .failure
    else .success [[(p.inputs.length : Int)]]

/-- Endpoint whose posts always fail with a transport error. -/
def epFail : Payload → EndpointResult := fun _ => .failure

/-- Endpoint that answers 200 with an empty vector-of-vectors. -/
def epEmpty : Payload → EndpointResult := fun _ => .success []

/-- A two-document job set of which exactly the second document fails under
`failEvery5`. -/
def docsMix : List Record := [mkDoc 1, mkDoc 4]

/-- An interleaved complete run of `docs2` against `epOK`: both tasks acquire
before either completes, and they complete in reverse order. -/
def sBA : ClientState :=
  completeStep epOK
    (completeStep epOK (acquireStep (acquireStep (initState docs2 2) 0) 1) 1) 0

/-- A successful `request` body changes nothing but the embedding field. -/
theorem applyResponse_frame {d d' : Record} {r : EndpointResult}
    (h : applyResponse d r = .ok d') :
    d'.content = d.content ∧ d'.otherFields = d.otherFields := by
  cases r with
  | failure => exact absurd h (by simp [applyResponse])
  | success vs =>
      cases vs with
      | nil => exact absurd h (by simp [applyResponse])
      | cons v tl =>
          simp only [applyResponse] at h
          injection h with h
          subst h
          exact ⟨rfl, rfl⟩

/-- C1: during any run of `main` over any job set with a positive concurrency
limit `K`, at most `K` embedding requests are outstanding at any instant:
a request is issued only while its task holds one of the `K` semaphore
slots, and a slot is given back only when a request completes, successfully
or not. -/
theorem C1_bounded_concurrency (ep : Payload → EndpointResult)
    (docs0 : List Record) (K : Nat) (s : ClientState)
    (hK : 0 < K) (hr : Reachable ep docs0 K s) :
    countInFlight s ≤ K := by
  have hsem := (inv_reachable hr).sem
  omega

/-- Witness for C1: a reachable mid-run state of a two-document job set with
one request in flight against the bound 2. -/
theorem C1_bounded_concurrency_witness :
    0 < 2 ∧ Reachable epOK docs2 2 (acquireStep (initState docs2 2) 0) ∧
      countInFlight (acquireStep (initState docs2 2) 0) ≤ 2 := by
  have hr : Reachable epOK docs2 2 (acquireStep (initState docs2 2) 0) :=
    Relation.ReflTransGen.single
      (Step.acquire (initState docs2 2) 0 (by decide) (by decide) (by decide))
  exact ⟨by decide, hr, C1_bounded_concurrency epOK docs2 2 _ (by decide) hr⟩

set_option maxRecDepth 100000 in
/-- C2 is false on the code: in a complete run of 100 documents against an
endpoint failing every 5th request, 80 documents get embeddings and 20 do
not, but the 20 carry no per-record error marker (they are exactly the
submitted documents) and the await loop of `main` re-raises, so an exception
does terminate the run of `main`. -/
theorem C2_counterexample :
    Reachable failEvery5 docs100 MAX_WORKERS (runAll failEvery5 docs100 MAX_WORKERS) ∧
      Terminal (runAll failEvery5 docs100 MAX_WORKERS) ∧
      mainAborted (runAll failEvery5 docs100 MAX_WORKERS) = true ∧
      (runAll failEvery5 docs100 MAX_WORKERS).docs.countP
        (fun d => d.embedding.isSome) = 80 ∧
      (runAll failEvery5 docs100 MAX_WORKERS).docs.countP
        (fun d => d.embedding.isNone) = 20 :=
  ⟨runAll_reachable failEvery5 docs100 MAX_WORKERS (by decide), by decide, by decide,
    by decide, by decide⟩

/-- C2 amended: per-record failure isolation does not exist in the code.  In
any complete run, a document whose request failed is left exactly as it was
submitted (no embedding and no error marker), documents whose requests
succeeded keep their embeddings, and `main` terminates by re-raising an
exception precisely when at least one request failed. -/
theorem C2_amended_failure_aborts_main (ep : Payload → EndpointResult)
    (docs0 : List Record) (K : Nat) (s : ClientState)
    (hr : Reachable ep docs0 K s) (ht : Terminal s) :
    mainAborted s = docs0.any (fun d => (outcomeErr? ep d).isSome) ∧
      s.docs = docs0.map (finalDoc ep) := by
  have inv := inv_reachable hr
  refine ⟨?_, final_docs hr ht⟩
  simp only [mainAborted]
  rw [Bool.eq_iff_iff, List.any_eq_true, List.any_eq_true]
  constructor
  · rintro ⟨x, hx, hfail⟩
    obtain ⟨j, hjP, rfl⟩ := List.mem_iff_getElem.mp hx
    have hjD : j < docs0.length := by rw [← inv.lenPhases]; exact hjP
    have hget : s.phases.getD j .waiting = s.phases[j] :=
      List.getD_eq_getElem s.phases .waiting hjP
    cases hph : s.phases[j] with
    | waiting => rw [hph] at hfail; simp [TaskPhase.isFailed] at hfail
    | inFlight => rw [hph] at hfail; simp [TaskPhase.isFailed] at hfail
    | done o =>
        cases o with
        | none => rw [hph] at hfail; simp [TaskPhase.isFailed] at hfail
        | some e =>
            obtain ⟨hout, _, _⟩ := inv.err_inv j hjD e (by rw [hget, hph])
            refine ⟨docs0.getD j default, ?_, ?_⟩
            · rw [List.getD_eq_getElem docs0 default hjD]
              exact List.getElem_mem hjD
            · unfold outcomeErr?
              rw [hout]
              rfl
  · rintro ⟨d, hd, hsome⟩
    obtain ⟨i, hiD, rfl⟩ := List.mem_iff_getElem.mp hd
    have hiP : i < s.phases.length := by rw [inv.lenPhases]; exact hiD
    have hgd : docs0.getD i default = docs0[i] :=
      List.getD_eq_getElem docs0 default hiD
    obtain ⟨e, hout⟩ : ∃ e, taskOutcome ep (docs0.getD i default) = .error e := by
      rw [hgd]
      cases hto : taskOutcome ep docs0[i] with
      | ok d' => exact absurd hsome (by simp [outcomeErr?, hto])
      | error e => exact ⟨e, rfl⟩
    obtain ⟨o, hph⟩ := terminal_phase ht i hiP
    cases o with
    | none =>
        obtain ⟨hok, _⟩ := inv.ok_inv i hiD hph
        rw [hout] at hok
        exact absurd hok (by simp)
    | some e' =>
        have hmem : TaskPhase.done (some e') ∈ s.phases := by
          rw [← hph, List.getD_eq_getElem s.phases .waiting hiP]
          exact List.getElem_mem hiP
        exact ⟨_, hmem, rfl⟩

/-- Witness for the amended C2 at a concrete mixed run: one succeeding and
one failing document. -/
theorem C2_amended_failure_aborts_main_witness :
    Reachable failEvery5 docsMix 1 (runAll failEvery5 docsMix 1) ∧
      Terminal (runAll failEvery5 docsMix 1) ∧
      mainAborted (runAll failEvery5 docsMix 1)
        = docsMix.any (fun d => (outcomeErr? failEvery5 d).isSome) ∧
      (runAll failEvery5 docsMix 1).docs = docsMix.map (finalDoc failEvery5) := by
  have hr : Reachable failEvery5 docsMix 1 (runAll failEvery5 docsMix 1) :=
    runAll_reachable failEvery5 docsMix 1 (by decide)
  have ht : Terminal (runAll failEvery5 docsMix 1) := by decide
  obtain ⟨h1, h2⟩ := C2_amended_failure_aborts_main failEvery5 docsMix 1 _ hr ht
  exact ⟨hr, ht, h1, h2⟩

/-- C3: if every request of a complete run succeeded with at least one
vector, the run leaves the same document sequence in the same order, each
document annotated with an `embedding` equal to the first vector of the
endpoint's response for that document's own content. -/
theorem C3_success_annotates_first_vector (ep : Payload → EndpointResult)
    (docs0 : List Record) (K : Nat) (s : ClientState)
    (hr : Reachable ep docs0 K s) (ht : Terminal s)
    (hok : docs0.all (fun d => hasVector (ep (mkPayload d))) = true) :
    s.docs = docs0.map
      (fun d => { d with embedding := firstVector? (ep (mkPayload d)) }) := by
  rw [final_docs hr ht]
  apply List.map_congr_left
  intro d hd
  rw [List.all_eq_true] at hok
  have h := hok d hd
  cases hep : ep (mkPayload d) with
  | failure => rw [hep] at h; simp [hasVector] at h
  | success vs =>
      cases vs with
      | nil => rw [hep] at h; simp [hasVector] at h
      | cons v tl => simp [finalDoc, taskOutcome, applyResponse, firstVector?, hep]

/-- Witness for C3: a complete three-document run against `epOK`. -/
theorem C3_success_annotates_first_vector_witness :
    Reachable epOK docs3 2 (runAll epOK docs3 2) ∧
      Terminal (runAll epOK docs3 2) ∧
      docs3.all (fun d => hasVector (epOK (mkPayload d))) = true ∧
      (runAll epOK docs3 2).docs = docs3.map
        (fun d => { d with embedding := firstVector? (epOK (mkPayload d)) }) := by
  have hr : Reachable epOK docs3 2 (runAll epOK docs3 2) :=
    runAll_reachable epOK docs3 2 (by decide)
  have ht : Terminal (runAll epOK docs3 2) := by decide
  exact ⟨hr, ht, by decide,
    C3_success_annotates_first_vector epOK docs3 2 _ hr ht (by decide)⟩

/-- C4: whatever the completion order, an embedding found on document `i` at
any instant is the first vector of the endpoint's response to document `i`'s
own content — never a sibling document's response. -/
theorem C4_no_cross_assignment (ep : Payload → EndpointResult)
    (docs0 : List Record) (K : Nat) (s : ClientState) (i : Nat) (v : List Int)
    (hr : Reachable ep docs0 K s)
    (hemb : docs0.all (fun d => d.embedding.isNone) = true)
    (hi : i < docs0.length)
    (hv : (s.docs.getD i default).embedding = some v) :
    firstVector? (ep (mkPayload (docs0.getD i default))) = some v := by
  have inv := inv_reachable hr
  rw [List.all_eq_true] at hemb
  have hmem : docs0.getD i default ∈ docs0 := by
    rw [List.getD_eq_getElem docs0 default hi]
    exact List.getElem_mem hi
  have hnone : (docs0.getD i default).embedding = none := by
    simpa using hemb _ hmem
  cases hph : s.phases.getD i .waiting with
  | waiting =>
      obtain ⟨hd, _⟩ := inv.wait_inv i hi hph
      rw [hd, hnone] at hv
      exact absurd hv (by simp)
  | inFlight =>
      obtain ⟨hd, _⟩ := inv.flight_inv i hi hph
      rw [hd, hnone] at hv
      exact absurd hv (by simp)
  | done o =>
      cases o with
      | some e =>
          obtain ⟨_, hd, _⟩ := inv.err_inv i hi e hph
          rw [hd, hnone] at hv
          exact absurd hv (by simp)
      | none =>
          obtain ⟨hout, _⟩ := inv.ok_inv i hi hph
          unfold taskOutcome at hout
          cases hep : ep (mkPayload (docs0.getD i default)) with
          | failure =>
              rw [hep] at hout
              exact absurd hout (by simp [applyResponse])
          | success vs =>
              cases vs with
              | nil =>
                  rw [hep] at hout
                  exact absurd hout (by simp [applyResponse])
              | cons w tl =>
                  rw [hep] at hout
                  simp only [applyResponse] at hout
                  injection hout with hout
                  rw [← hout] at hv
                  simp at hv
                  simp [firstVector?, hv]

/-- Witness for C4 at the second document of a complete run. -/
theorem C4_no_cross_assignment_witness :
    Reachable epOK docs3 2 (runAll epOK docs3 2) ∧
      docs3.all (fun d => d.embedding.isNone) = true ∧ 1 < docs3.length ∧
      ((runAll epOK docs3 2).docs.getD 1 default).embedding = some [1] ∧
      firstVector? (epOK (mkPayload (docs3.getD 1 default))) = some [1] := by
  have hr : Reachable epOK docs3 2 (runAll epOK docs3 2) :=
    runAll_reachable epOK docs3 2 (by decide)
  exact ⟨hr, by decide, by decide, by decide,
    C4_no_cross_assignment epOK docs3 2 _ 1 [1] hr (by decide) (by decide) (by decide)⟩

/-- C5: the embedding step never changes the content or the other fields of
any document, at any instant of any run: the only mutation `request`
performs on a document is the `embedding` assignment. -/
theorem C5_frame_other_fields (ep : Payload → EndpointResult)
    (docs0 : List Record) (K : Nat) (s : ClientState) (i : Nat)
    (hr : Reachable ep docs0 K s) (hi : i < docs0.length) :
    (s.docs.getD i default).content = (docs0.getD i default).content ∧
      (s.docs.getD i default).otherFields = (docs0.getD i default).otherFields := by
  have inv := inv_reachable hr
  cases hph : s.phases.getD i .waiting with
  | waiting =>
      obtain ⟨hd, _⟩ := inv.wait_inv i hi hph
      rw [hd]
      exact ⟨rfl, rfl⟩
  | inFlight =>
      obtain ⟨hd, _⟩ := inv.flight_inv i hi hph
      rw [hd]
      exact ⟨rfl, rfl⟩
  | done o =>
      cases o with
      | some e =>
          obtain ⟨_, hd, _⟩ := inv.err_inv i hi e hph
          rw [hd]
          exact ⟨rfl, rfl⟩
      | none =>
          obtain ⟨hout, _⟩ := inv.ok_inv i hi hph
          unfold taskOutcome at hout
          exact applyResponse_frame hout

/-- Witness for C5 at the third document of a complete run. -/
theorem C5_frame_other_fields_witness :
    Reachable epOK docs3 2 (runAll epOK docs3 2) ∧ 2 < docs3.length ∧
      ((runAll epOK docs3 2).docs.getD 2 default).content
        = (docs3.getD 2 default).content ∧
      ((runAll epOK docs3 2).docs.getD 2 default).otherFields
        = (docs3.getD 2 default).otherFields := by
  have hr : Reachable epOK docs3 2 (runAll epOK docs3 2) :=
    runAll_reachable epOK docs3 2 (by decide)
  obtain ⟨h1, h2⟩ := C5_frame_other_fields epOK docs3 2 _ 2 hr (by decide)
  exact ⟨hr, by decide, h1, h2⟩

/-- C6: `main` spawns exactly one task per document, and a document is
admitted for at most one request at any instant of any run — exactly one
once the run is complete: every document receives exactly one embedding
attempt, by its own single task. -/
theorem C6_exactly_one_attempt (ep : Payload → EndpointResult)
    (docs0 : List Record) (K : Nat) (s : ClientState) (i : Nat)
    (hr : Reachable ep docs0 K s) (hi : i < docs0.length) :
    s.phases.length = docs0.length ∧ (s.attempts.getD i 0 ≤ 1 ∧
      (Terminal s → s.attempts.getD i 0 = 1)) := by
  have inv := inv_reachable hr
  have hiP : i < s.phases.length := by rw [inv.lenPhases]; exact hi
  refine ⟨inv.lenPhases, ?_⟩
  cases hph : s.phases.getD i .waiting with
  | waiting =>
      obtain ⟨_, ha⟩ := inv.wait_inv i hi hph
      refine ⟨by omega, fun ht => ?_⟩
      obtain ⟨o, h⟩ := terminal_phase ht i hiP
      rw [hph] at h
      simp at h
  | inFlight =>
      obtain ⟨_, ha⟩ := inv.flight_inv i hi hph
      exact ⟨by omega, fun _ => ha⟩
  | done o =>
      cases o with
      | none =>
          obtain ⟨_, ha⟩ := inv.ok_inv i hi hph
          exact ⟨by omega, fun _ => ha⟩
      | some e =>
          obtain ⟨_, _, ha⟩ := inv.err_inv i hi e hph
          exact ⟨by omega, fun _ => ha⟩

/-- Witness for C6 at the second document of a complete run. -/
theorem C6_exactly_one_attempt_witness :
    Reachable epOK docs3 2 (runAll epOK docs3 2) ∧ 1 < docs3.length ∧
      ((runAll epOK docs3 2).phases.length = docs3.length ∧
        ((runAll epOK docs3 2).attempts.getD 1 0 ≤ 1 ∧
          (Terminal (runAll epOK docs3 2) →
            (runAll epOK docs3 2).attempts.getD 1 0 = 1))) := by
  have hr : Reachable epOK docs3 2 (runAll epOK docs3 2) :=
    runAll_reachable epOK docs3 2 (by decide)
  exact ⟨hr, by decide, C6_exactly_one_attempt epOK docs3 2 _ 1 hr (by decide)⟩

/-- C7 is false on the code: a complete run over a single document against an
endpoint that always fails with a transport error makes exactly one attempt
for the record — no retry, with or without backoff — and does not mark the
record failed: the document comes back untouched while the exception aborts
`main`. -/
theorem C7_counterexample :
    Reachable epFail [mkDoc 0] 1 (runAll epFail [mkDoc 0] 1) ∧
      Terminal (runAll epFail [mkDoc 0] 1) ∧
      (runAll epFail [mkDoc 0] 1).attempts = [1] ∧
      (runAll epFail [mkDoc 0] 1).docs = [mkDoc 0] ∧
      mainAborted (runAll epFail [mkDoc 0] 1) = true :=
  ⟨runAll_reachable epFail [mkDoc 0] 1 (by decide), by decide, by decide, by decide,
    by decide⟩

/-- C7 amended: there is no retry logic.  A record whose single request hit a
network error ends any complete run with exactly one attempt made for it,
and is not marked failed: it is exactly the submitted record, and the error
propagates to `main` instead. -/
theorem C7_amended_single_attempt (ep : Payload → EndpointResult)
    (docs0 : List Record) (K : Nat) (s : ClientState) (i : Nat) (e : ReqError)
    (hr : Reachable ep docs0 K s) (hi : i < docs0.length)
    (hout : taskOutcome ep (docs0.getD i default) = .error e) (ht : Terminal s) :
    s.attempts.getD i 0 = 1 ∧ s.docs.getD i default = docs0.getD i default := by
  have inv := inv_reachable hr
  have hiP : i < s.phases.length := by rw [inv.lenPhases]; exact hi
  obtain ⟨o, hph⟩ := terminal_phase ht i hiP
  cases o with
  | none =>
      obtain ⟨hok, _⟩ := inv.ok_inv i hi hph
      rw [hout] at hok
      exact absurd hok (by simp)
  | some e' =>
      obtain ⟨_, hd, ha⟩ := inv.err_inv i hi e' hph
      exact ⟨ha, hd⟩

/-- Witness for the amended C7: the always-failing two-document run. -/
theorem C7_amended_single_attempt_witness :
    Reachable epFail docs2 1 (runAll epFail docs2 1) ∧ 0 < docs2.length ∧
      taskOutcome epFail (docs2.getD 0 default) = .error .network ∧
      Terminal (runAll epFail docs2 1) ∧
      ((runAll epFail docs2 1).attempts.getD 0 0 = 1 ∧
        (runAll epFail docs2 1).docs.getD 0 default = docs2.getD 0 default) := by
  have hr : Reachable epFail docs2 1 (runAll epFail docs2 1) :=
    runAll_reachable epFail docs2 1 (by decide)
  exact ⟨hr, by decide, rfl, by decide,
    C7_amended_single_attempt epFail docs2 1 _ 0 .network hr (by decide) rfl
      (by decide)⟩

/-- C8: the payload posted for any document carries the document's entire
`content` string together with `truncate: true`, and the request pipeline
applies the endpoint to exactly this payload — there is no client-side
length pre-validation between the document and the post, whatever the
content's length. -/
theorem C8_truncate_sends_full_content (ep : Payload → EndpointResult)
    (document : Record) :
    (mkPayload document).inputs = document.content ∧
      (mkPayload document).truncate = true ∧
      taskOutcome ep document = applyResponse document (ep (mkPayload document)) :=
  ⟨rfl, rfl, rfl⟩

/-- C9: two complete runs over the same documents against the same
deterministic endpoint leave identical annotated document lists — the
pass-through does not depend on the interleaving or the concurrency limit. -/
theorem C9_runs_deterministic (ep : Payload → EndpointResult)
    (docs0 : List Record) (Ka Kb : Nat) (sa sb : ClientState)
    (ha : Reachable ep docs0 Ka sa) (ta : Terminal sa)
    (hb : Reachable ep docs0 Kb sb) (tb : Terminal sb) :
    sa.docs = sb.docs := by
  rw [final_docs ha ta, final_docs hb tb]

/-- Witness for C9: the serial run of two documents and an interleaved run
completing in reverse order produce the same annotated documents. -/
theorem C9_runs_deterministic_witness :
    Reachable epOK docs2 2 (runAll epOK docs2 2) ∧ Terminal (runAll epOK docs2 2) ∧
      Reachable epOK docs2 2 sBA ∧ Terminal sBA ∧
      (runAll epOK docs2 2).docs = sBA.docs := by
  have h1 : Reachable epOK docs2 2 (runAll epOK docs2 2) :=
    runAll_reachable epOK docs2 2 (by decide)
  have h2 : Reachable epOK docs2 2 sBA :=
    Relation.ReflTransGen.tail
      (Relation.ReflTransGen.tail
        (Relation.ReflTransGen.tail
          (Relation.ReflTransGen.single
            (Step.acquire (initState docs2 2) 0 (by decide) (by decide) (by decide)))
          (Step.acquire (acquireStep (initState docs2 2) 0) 1 (by decide) (by decide)
            (by decide)))
        (Step.complete (acquireStep (acquireStep (initState docs2 2) 0) 1) 1
          (by decide) (by decide)))
      (Step.complete
        (completeStep epOK (acquireStep (acquireStep (initState docs2 2) 0) 1) 1) 0
        (by decide) (by decide))
  exact ⟨h1, by decide, h2, by decide,
    C9_runs_deterministic epOK docs2 2 2 _ _ h1 (by decide) h2 (by decide)⟩

/-- C10: `request` indexes the decoded response at position 0 without a
guard: an embedding is assigned only when the response holds at least one
vector, and when the endpoint answers success with an empty vector list the
task raises `IndexError` and no `embedding` field is attached. -/
theorem C10_empty_response_raises (ep : Payload → EndpointResult)
    (document : Record) (h : ep (mkPayload document) = .success []) :
    taskOutcome ep document = .error .indexError ∧
      finalDoc ep document = document ∧
      (finalDoc ep document).embedding = document.embedding := by
  have h1 : taskOutcome ep document = .error .indexError := by
    unfold taskOutcome
    rw [h]
    rfl
  have h2 : finalDoc ep document = document := by
    unfold finalDoc
    rw [h1]
  exact ⟨h1, h2, by rw [h2]⟩

/-- Witness for C10: a concrete endpoint answering 200 with no vectors. -/
theorem C10_empty_response_raises_witness :
    epEmpty (mkPayload (mkDoc 0)) = .success [] ∧
      (taskOutcome epEmpty (mkDoc 0) = .error .indexError ∧
        finalDoc epEmpty (mkDoc 0) = mkDoc 0 ∧
        (finalDoc epEmpty (mkDoc 0)).embedding = (mkDoc 0).embedding) :=
  ⟨rfl, C10_empty_response_raises epEmpty (mkDoc 0) rfl⟩

end EmbedClient
